import Mathlib

/-!
Verification development for the go-pogo/rawconv repository.

The repository converts between a textual representation (`Value`, a Go
string) and typed in-memory values, via a registry of conversion functions
keyed by `reflect.Type`, with primitive-kind and composite (array/slice/map)
fallbacks.  This file shallowly embeds the latest (`rawconv`) variant of the
code: `register.go` (the generic `register[T]` table), `decode.go`
(`Unmarshaler.unmarshal` and friends), the marshal mirror, the `Value`
parsing wrappers (`intSize`, `uintSize`, ...), the `errKind` classification,
and the rune converter.  Go strings are embedded as byte lists, machine
integers as `Nat`/`Int` with explicit range handling mirroring `strconv`.
-/

namespace Rawconv

/-- Byte of a Go string; values are < 256 by construction in all inputs used. -/
abbrev Byte := Nat

/-- Value is a textual representation of a raw value (a Go string), embedded
as its byte sequence, since the code indexes and measures it in bytes. -/
abbrev Value := List Byte

/-- IsEmpty indicates if Value is an empty string (value.go). -/
def Value.isEmpty (v : Value) : Bool := List.isEmpty v

/-- ASCII bytes of a Lean string; used to write concrete test inputs.  Only
applied to ASCII strings, where Go's byte view and the char view agree. -/
def ascii (s : String) : Value := s.data.map Char.toNat

/-- Widths of the Go signed-integer kinds; `iDefault` is platform `int`
(64-bit in this model, matching the repository's test platform). -/
inductive IntW where
  | iDefault | i8 | i16 | i32 | i64
  deriving DecidableEq, Repr

/-- Bits returned by reflect for each signed-integer kind
(`dest.Type().Bits()`). -/
def IntW.bits : IntW → Nat
  | .iDefault => 64
  | .i8 => 8
  | .i16 => 16
  | .i32 => 32
  | .i64 => 64

/-- Widths of the Go unsigned-integer kinds. -/
inductive UintW where
  | uDefault | u8 | u16 | u32 | u64
  deriving DecidableEq, Repr

/-- Bits of each unsigned-integer kind. -/
def UintW.bits : UintW → Nat
  | .uDefault => 64
  | .u8 => 8
  | .u16 => 16
  | .u32 => 32
  | .u64 => 64

/-- Widths of the Go float kinds. -/
inductive FloatW where
  | f32 | f64
  deriving DecidableEq, Repr

/-- Bits of each float kind. -/
def FloatW.bits : FloatW → Nat
  | .f32 => 32
  | .f64 => 64

/-- Widths of the Go complex kinds. -/
inductive ComplexW where
  | c64 | c128
  deriving DecidableEq, Repr

/-- Bits of each complex kind. -/
def ComplexW.bits : ComplexW → Nat
  | .c64 => 64
  | .c128 => 128

/-- Kinds mirroring `reflect.Kind` (the subset the code distinguishes). -/
inductive RKind where
  | kInvalid
  | kBool
  | kInt (w : IntW)
  | kUint (w : UintW)
  | kUintptr
  | kFloat (w : FloatW)
  | kComplex (w : ComplexW)
  | kArray
  | kChan
  | kFunc
  | kInterface
  | kMap
  | kPtr
  | kSlice
  | kString
  | kStruct
  | kUPointer  -- reflect.UnsafePointer: raw pointers outside runtime control
  deriving DecidableEq, Repr

/-- Type descriptors mirroring `reflect.Type` for the types the claims need:
builtin scalar types, composites, pointers, interfaces, and other named
types (distinguished by a kind plus an identity tag). -/
inductive RType where
  | tString
  | tBool
  | tInt (w : IntW)
  | tUint (w : UintW)
  | tFloat (w : FloatW)
  | tComplex (w : ComplexW)
  | tArray (n : Nat) (elem : RType)
  | tSlice (elem : RType)
  | tMap (key val : RType)
  | tPtr (elem : RType)
  | tIface (id : Nat)
  | tNamed (k : RKind) (id : Nat)
  deriving DecidableEq, Repr

/-- Kind of a type descriptor (`reflect.Type.Kind()`). -/
def RType.kind : RType → RKind
  | .tString => .kString
  | .tBool => .kBool
  | .tInt w => .kInt w
  | .tUint w => .kUint w
  | .tFloat w => .kFloat w
  | .tComplex w => .kComplex w
  | .tArray _ _ => .kArray
  | .tSlice _ => .kSlice
  | .tMap _ _ => .kMap
  | .tPtr _ => .kPtr
  | .tIface _ => .kInterface
  | .tNamed k _ => k

/-- Structural size of a type descriptor, used as the termination measure of
the unmarshal/marshal recursion (the code recurses along element and pointee
types). -/
@[simp] def RType.depth : RType → Nat
  | .tArray _ e => e.depth + 1
  | .tSlice e => e.depth + 1
  | .tMap k v => Nat.max k.depth v.depth + 1
  | .tPtr e => e.depth + 1
  | _ => 0

/-- Message constants of type `errors.Msg` declared by the code
(decode.go, the marshal file, part_011). -/
inductive ErrMsg where
  | errPointerExpected
  | errUnmarshalNested
  | errUnableToSet
  | errUnableToAddr
  | errRuneTooManyChars
  | errArrayTooManyValues
  | errMapInvalidFormat
  | errUnmarshalFuncExec
  | errMarshalNested
  | errParseFailure
  | errValidationFailure
  deriving DecidableEq, Repr

/-- Cause field of a `strconv.NumError`: `strconv.ErrSyntax` or
`strconv.ErrRange`. -/
inductive NumCause where
  | cSyn
  | cRange
  deriving DecidableEq, Repr

/-- Errors the embedded code can produce.  `wrap` models
`errors.Wrap(inner, msg)`; `num` a bare `*strconv.NumError`;
`unsupported` an `*UnsupportedTypeError`; `assertFail` the panic of a failed
Go type assertion inside a converter (unreachable for well-typed uses). -/
inductive Err where
  | m (msg : ErrMsg)
  | wrap (msg : ErrMsg) (inner : Err)
  | num (cause : NumCause)
  | unsupported (t : RType)
  | assertFail
  | fuelOut
  deriving DecidableEq, Repr

/-- Is models `errors.Is(e, msg)` for a message sentinel: it searches the
wrap chain. -/
def Err.is (e : Err) (msg : ErrMsg) : Bool :=
  match e with
  | .m m' => m' = msg
  | .wrap m' inner => m' = msg || inner.is msg
  | _ => false

/-- As models `errors.As(e, &numErr)`: the `*strconv.NumError` in the wrap
chain, if any. -/
def Err.asNum (e : Err) : Option NumCause :=
  match e with
  | .num c => some c
  | .wrap _ inner => inner.asNum
  | _ => none

/-! Model of the external `strconv` parsing primitives used by the code
(`ParseUint`/`ParseInt` with base 0, `ParseBool`), translated from the Go
standard library sources so that numeric range and syntax behaviour —
including clamped results on range errors — is exact. -/

/-- Lower-cases an ASCII byte (strconv's `lower`). -/
def lowerB (c : Byte) : Byte := c ||| 32

/-- Character classes tracked by strconv's `underscoreOK`. -/
inductive UChar where
  | caret | dig | und | other
  deriving DecidableEq, Repr

/-- Loop of strconv's `underscoreOK`: underscores must separate digits. -/
def underscoreOKLoop (hex : Bool) : List Byte → UChar → Bool
  | [], saw => saw ≠ .und
  | c :: rest, saw =>
    if (48 ≤ c ∧ c ≤ 57) ∨ (hex ∧ 97 ≤ lowerB c ∧ lowerB c ≤ 102) then
      underscoreOKLoop hex rest .dig
    else if c = 95 then
      if saw ≠ .dig then false else underscoreOKLoop hex rest .und
    else if saw = .und then false
    else underscoreOKLoop hex rest .other

/-- Reports whether the underscores in the original number string are
syntactically valid (strconv's `underscoreOK`). -/
def underscoreOK (s : List Byte) : Bool :=
  let s1 := match s with
    | c :: rest => if c = 45 ∨ c = 43 then rest else s
    | [] => s
  match s1 with
  | c0 :: c1 :: rest =>
    if c0 = 48 ∧ (lowerB c1 = 98 ∨ lowerB c1 = 111 ∨ lowerB c1 = 120) then
      underscoreOKLoop (lowerB c1 = 120) rest .dig
    else underscoreOKLoop false s1 .caret
  | _ => underscoreOKLoop false s1 .caret

/-- Digit value of a byte under strconv's rules: decimal digits, then
letters with value 10..35 via `lower`; `none` is a syntax error. -/
def digitVal (c : Byte) : Option Nat :=
  if 48 ≤ c ∧ c ≤ 57 then some (c - 48)
  else if 97 ≤ lowerB c ∧ lowerB c ≤ 122 then some (lowerB c - 97 + 10)
  else none

/-- Largest uint64, strconv's `maxUint64`. -/
def maxUint64 : Nat := 2 ^ 64 - 1

/-- Digit-accumulation loop of `strconv.ParseUint`.  `sawU` records whether
an underscore was consumed (base-0 parsing allows them, validated after the
loop).  On overflow the clamped `maxVal` is returned with a range error,
exactly as strconv does. -/
def parseUintLoop (base maxVal : Nat) (s0 : List Byte) :
    List Byte → Nat → Bool → (Nat × Option NumCause) × Bool
  | [], n, sawU => ((n, none), sawU)
  | c :: rest, n, sawU =>
    if c = 95 then parseUintLoop base maxVal s0 rest n true
    else
      match digitVal c with
      | none => ((0, some .cSyn), sawU)
      | some d =>
        if d ≥ base then ((0, some .cSyn), sawU)
        else if n ≥ maxUint64 / base + 1 then ((maxVal, some .cRange), sawU)
        else
          let n1 := n * base + d
          if n1 > maxUint64 ∨ n1 > maxVal then ((maxVal, some .cRange), sawU)
          else parseUintLoop base maxVal s0 rest n1 sawU

/-- Model of `strconv.ParseUint(s, 0, bitSize)`: base-0 prefix detection
(`0x`/`0o`/`0b`/leading-zero octal), digit loop with clamping, and the
trailing underscore validation. -/
def parseUintGo (s : Value) (bitSize : Nat) : Nat × Option NumCause :=
  if s = [] then (0, some .cSyn)
  else
    let pr : Nat × List Byte :=
      match s with
      | c0 :: c1 :: c2 :: rest =>
        if c0 = 48 then
          if lowerB c1 = 98 then (2, c2 :: rest)
          else if lowerB c1 = 111 then (8, c2 :: rest)
          else if lowerB c1 = 120 then (16, c2 :: rest)
          else (8, c1 :: c2 :: rest)
        else (10, s)
      | c0 :: rest =>
        if c0 = 48 then (8, rest) else (10, s)
      | [] => (10, s)
    let base := pr.1
    let digits := pr.2
    let maxVal := 2 ^ bitSize - 1
    let r := parseUintLoop base maxVal s digits 0 false
    match r.1.2 with
    | some c => (r.1.1, some c)
    | none =>
      if r.2 ∧ ¬underscoreOK s then (0, some .cSyn) else (r.1.1, none)

/-- Model of `strconv.ParseInt(s, 0, bitSize)`: sign handling around
`ParseUint`, with the signed range checks returning clamped extremes. -/
def parseIntGo (s : Value) (bitSize : Nat) : Int × Option NumCause :=
  if s = [] then (0, some .cSyn)
  else
    let (neg, s1) : Bool × List Byte :=
      match s with
      | c :: rest =>
        if c = 43 then (false, rest)
        else if c = 45 then (true, rest)
        else (false, s)
      | [] => (false, s)
    let (un, err) := parseUintGo s1 bitSize
    match err with
    | some .cSyn => (0, some .cSyn)
    | _ =>
      let cutoff : Nat := 2 ^ (bitSize - 1)
      if ¬neg ∧ un ≥ cutoff then ((cutoff : Int) - 1, some .cRange)
      else if neg ∧ un > cutoff then (-(cutoff : Int), some .cRange)
      else (if neg then -(un : Int) else (un : Int), none)

/-- Model of `strconv.ParseBool`: the fixed literal set. -/
def parseBoolGo (s : Value) : Bool × Option NumCause :=
  if s = ascii "1" ∨ s = ascii "t" ∨ s = ascii "T" ∨ s = ascii "true" ∨
      s = ascii "TRUE" ∨ s = ascii "True" then (true, none)
  else if s = ascii "0" ∨ s = ascii "f" ∨ s = ascii "F" ∨ s = ascii "false" ∨
      s = ascii "FALSE" ∨ s = ascii "False" then (false, none)
  else (false, some .cSyn)

/-- Decimal digit bytes of a natural number. -/
def natDigits (n : Nat) : List Byte :=
  (Nat.toDigits 10 n).map Char.toNat

/-- Model of `strconv.FormatUint(v, 10)`. -/
def formatUintGo (n : Nat) : Value := natDigits n

/-- Model of `strconv.FormatInt(v, 10)`. -/
def formatIntGo (x : Int) : Value :=
  if x < 0 then 45 :: natDigits x.natAbs else natDigits x.natAbs

/-- Model of `strconv.FormatBool`. -/
def formatBoolGo (b : Bool) : Value :=
  if b then ascii "true" else ascii "false"

/-! Model of Go maps as association lists.  Keyed lookup and replace-or-append
insertion are deterministic; iteration order, however, is NOT specified by Go
(the runtime randomizes it), so every function that iterates a map takes the
iteration order as an explicit argument constrained to be a permutation of
the stored entries. -/

/-- Lookup in a Go map (association list, keys unique by construction). -/
def mapGet {K V : Type} [DecidableEq K] : List (K × V) → K → Option V
  | [], _ => none
  | (k, v) :: rest, key => if key = k then some v else mapGet rest key

/-- Assignment `m[k] = v` in a Go map: replaces the binding in place when the
key is present, otherwise appends it. -/
def mapPut {K V : Type} [DecidableEq K] : List (K × V) → K → V → List (K × V)
  | [], key, v => [(key, v)]
  | (k, w) :: rest, key, v =>
    if key = k then (k, v) :: rest else (k, w) :: mapPut rest key v

/-! Embedding of `register[T]` (register.go, the latest `rawconv` variant):
a two-level map from kind to type to an index into an append-only function
list. -/

/-- Registry of conversion functions: `types map[reflect.Kind]map[reflect.Type]int`
and `funcs []T`, both nil until the first registration (modelled by
`Option`). -/
structure Register (F : Type) where
  types : Option (List (RKind × List (RType × Nat)))
  funcs : Option (List F)

/-- Empty registry (zero value of the struct: both maps nil). -/
def Register.empty {F : Type} : Register F := ⟨none, none⟩

/-- Initialized reports whether both internal containers are non-nil
(`register.initialized`). -/
def Register.initialized {F : Type} (r : Register F) : Bool :=
  r.types.isSome && r.funcs.isSome

/-- Add registers `fn` for `typ` (`register.add`).  The result is `none` when
the code would panic with `panicUnsupportedKind` (invalid, uintptr, chan,
func, unsafe-pointer, and the not-yet-supported array/map/slice kinds);
otherwise the kind's inner map gains/overwrites the binding to the next
function index and the function is appended. -/
def Register.add {F : Type} (r : Register F) (typ : RType) (fn : F) :
    Option (Register F) :=
  let k := typ.kind
  if k = .kInvalid ∨ k = .kUintptr ∨ k = .kChan ∨ k = .kFunc ∨
      k = .kUPointer ∨ k = .kArray ∨ k = .kMap ∨ k = .kSlice then
    none
  else
    let ts := r.types.getD []
    let fs := r.funcs.getD []
    let ts1 :=
      match mapGet ts k with
      | none => mapPut ts k [(typ, fs.length)]
      | some km => mapPut ts k (mapPut km typ fs.length)
    some ⟨some ts1, some (fs ++ [fn])⟩

/-- GetFromIndex returns the function stored at index `i`
(`register.getFromIndex`; the code panics when `i` is out of range, which is
unreachable for registries built by `add` and modelled by `none`). -/
def Register.getFromIndex {F : Type} (r : Register F) (i : Nat) : Option F :=
  (r.funcs.getD []).get? i

/-- GetFromType is the exact-type lookup (`register.getFromType`): kind map,
then type map, then the indexed function. -/
def Register.getFromType {F : Type} (r : Register F) (typ : RType) : Option F :=
  match mapGet (r.types.getD []) typ.kind with
  | none => none
  | some km =>
    match mapGet km typ with
    | none => none
    | some i => r.getFromIndex i

/-- Entries of the interface map `r.types[reflect.Interface]` in insertion
order (the list underlying the Go map; iteration order over it is a
permutation chosen by the runtime). -/
def Register.ifaceEntries {F : Type} (r : Register F) : List (RType × Nat) :=
  (mapGet (r.types.getD []) .kInterface).getD []

/-- GetFromImpl (`register.getFromImpl`) ranges over the interface map and
returns the function of the first registered interface that `typ`
implements.  Because Go does not specify map iteration order, the order
`ord` is an explicit argument; a run of the real code corresponds to some
permutation of `r.ifaceEntries`.  `impl ty x` models `ty.Implements(x)`. -/
def Register.getFromImplOrd {F : Type} (r : Register F)
    (impl : RType → RType → Bool) (ord : List (RType × Nat)) (typ : RType) :
    Option F :=
  match ord with
  | [] => none
  | (x, i) :: rest =>
    if impl typ x then r.getFromIndex i else r.getFromImplOrd impl rest typ

/-- Find resolves a conversion function for a type (`register.find`):
exact-type lookup; for non-pointer types, interface matching against the
pointer-to-type (`reflect.New(typ).Type()`); for pointer types, recursive
resolution of the pointee, then interface matching on the pointer type
itself.  (`tNamed` is never used with kind `kPtr` in this development, so
matching on the `tPtr` constructor coincides with `typ.Kind() == reflect.Ptr`.) -/
def Register.findOrd {F : Type} (r : Register F) (impl : RType → RType → Bool)
    (ord : List (RType × Nat)) : RType → Option F
  | .tPtr elem =>
    match r.getFromType (.tPtr elem) with
    | some fn => some fn
    | none =>
      match r.findOrd impl ord elem with
      | some fn => some fn
      | none => r.getFromImplOrd impl ord (.tPtr elem)
  | typ =>
    match r.getFromType typ with
    | some fn => some fn
    | none => r.getFromImplOrd impl ord (.tPtr typ)

/-- Find with the insertion order as iteration order; used by the value-level
embedding below, whose registries have at most one interface entry (so every
iteration order gives the same result there). -/
def Register.findD {F : Type} (r : Register F) (impl : RType → RType → Bool)
    (typ : RType) : Option F :=
  r.findOrd impl r.ifaceEntries typ

/-- Func of a scoped unmarshaler/marshaler (`Unmarshaler.Func`,
`Marshaler.Func` in the latest variant): local resolution first when the
scoped registry is initialized, then unconditional fallback to the global
registry. -/
def scopedFunc {F : Type} (own glob : Register F)
    (impl : RType → RType → Bool) (ordOwn ordGlob : List (RType × Nat))
    (typ : RType) : Option F :=
  if own.initialized then
    match own.findOrd impl ordOwn typ with
    | some fn => some fn
    | none => glob.findOrd impl ordGlob typ
  else glob.findOrd impl ordGlob typ

/-! Error classification and the numeric `Value` methods
(part_011, value-int.go, value-uint.go). -/

/-- ErrKind (part_011, the `rawconv` variant): digs a `*strconv.NumError` out
of the chain with `errors.As`; `ErrRange` classifies as
`ErrValidationFailure`, any other `NumError` as `ErrParseFailure`, anything
else as nil. -/
def errKindGo : Option Err → Option ErrMsg
  | none => none
  | some e =>
    match e.asNum with
    | some .cRange => some .errValidationFailure
    | some .cSyn => some .errParseFailure
    | none => none

/-- Wrapping pattern shared by `intSize`/`uintSize` (value-int.go,
value-uint.go): when `errKind` classifies the parse error, wrap it with the
classification; otherwise pass the error through (`errors.WithStack` adds
only a stack trace). -/
def wrapKind (err : Option NumCause) : Option Err :=
  match err with
  | none => none
  | some c =>
    match errKindGo (some (.num c)) with
    | some kind => some (.wrap kind (.num c))
    | none => some (.num c)

/-- IntSize parses with `strconv.ParseInt(v, 0, bitSize)` and classifies the
error (value-int.go).  The parsed value — clamped on range errors — is
returned alongside the error, exactly as the code propagates it. -/
def intSize (v : Value) (bitSize : Nat) : Int × Option Err :=
  let r := parseIntGo v bitSize
  (r.1, wrapKind r.2)

/-- UintSize parses with `strconv.ParseUint(v, 0, bitSize)` and classifies
the error (value-uint.go). -/
def uintSize (v : Value) (bitSize : Nat) : Nat × Option Err :=
  let r := parseUintGo v bitSize
  (r.1, wrapKind r.2)

/-- BoolSize models `Value.Bool` (val_bool.go): `strconv.ParseBool` plus the
same `errKind` classification pattern. -/
def boolSize (v : Value) : Bool × Option Err :=
  let r := parseBoolGo v
  (r.1, wrapKind r.2)

/-- Modelled from the spec: `strconv.ParseFloat` is an external parsing
primitive (spec section 1 places the string-to-number primitives out of
scope).  This model parses the plain decimal forms exactly into a rational
and flags out-of-range magnitudes; hex floats, inf/nan and underscore forms,
and IEEE rounding are not modelled.  No claim below depends on its numeric
behaviour: every theorem that touches a float destination does so only on
paths that return before parsing. -/
def readDigitsQ : List Byte → Nat → Nat → (Nat × Nat × List Byte)
  | [], acc, cnt => (acc, cnt, [])
  | c :: rest, acc, cnt =>
    if 48 ≤ c ∧ c ≤ 57 then readDigitsQ rest (acc * 10 + (c - 48)) (cnt + 1)
    else (acc, cnt, c :: rest)

/-- Core of the modelled float parser: mantissa with optional fraction and
exponent, over a sign-stripped input. -/
def parseFloatMag (s : List Byte) : Option ℚ :=
  let (ip, ic, r1) := readDigitsQ s 0 0
  let (fp, fc, r2) :=
    match r1 with
    | 46 :: rest => readDigitsQ rest 0 0
    | _ => (0, 0, r1)
  if ic = 0 ∧ fc = 0 then none
  else
    let mant : ℚ := (ip : ℚ) + (fp : ℚ) / ((10 : ℚ) ^ fc)
    match r2 with
    | [] => some mant
    | e :: rest =>
      if lowerB e = 101 then
        let (esign, r3) : Bool × List Byte :=
          match rest with
          | 43 :: t => (false, t)
          | 45 :: t => (true, t)
          | _ => (false, rest)
        let (ev, ec, r4) := readDigitsQ r3 0 0
        if ec = 0 ∨ r4 ≠ [] then none
        else some (if esign then mant / ((10 : ℚ) ^ ev) else mant * ((10 : ℚ) ^ ev))
      else none

/-- Modelled `strconv.ParseFloat(v, bitSize)`: see `parseFloatMag`. -/
def parseFloatModel (s : Value) (bitSize : Nat) : ℚ × Option NumCause :=
  let (neg, s1) : Bool × List Byte :=
    match s with
    | 43 :: t => (false, t)
    | 45 :: t => (true, t)
    | _ => (false, s)
  match parseFloatMag s1 with
  | none => (0, some .cSyn)
  | some q =>
    let lim : ℚ := if bitSize = 32 then (2 : ℚ) ^ 128 else (2 : ℚ) ^ 1024
    if q ≥ lim then ((if neg then -lim else lim), some .cRange)
    else ((if neg then -q else q), none)

/-- FloatSize models `Value` float parsing (the float value file):
`strconv.ParseFloat(v, bitSize)` plus the `errKind` classification. -/
def floatSize (v : Value) (bitSize : Nat) : ℚ × Option Err :=
  let r := parseFloatModel v bitSize
  (r.1, wrapKind r.2)

/-- Modelled from the spec: `strconv.ParseComplex` is likewise an external
primitive.  Only the `a+bi` and plain-real decimal forms are modelled; no
claim depends on it. -/
def parseComplexModel (s : Value) (bitSize : Nat) : (ℚ × ℚ) × Option NumCause :=
  let half := bitSize / 2
  match s.reverse with
  | 105 :: restRev =>
    let body := restRev.reverse
    match findIdx2 body with
    | some i =>
      let re := parseFloatModel (body.take i) half
      let im := parseFloatModel (body.drop i) half
      match re.2, im.2 with
      | none, none => ((re.1, im.1), none)
      | _, _ => ((0, 0), some .cSyn)
    | none =>
      let im := parseFloatModel body half
      ((0, im.1), im.2)
  | _ =>
    let re := parseFloatModel s half
    ((re.1, 0), re.2)
where
  /-- Index of the sign byte separating real and imaginary parts (skipping a
  leading sign and signs directly after an exponent marker). -/
  findIdx2 (body : List Byte) : Option Nat :=
    let idxs := (List.range body.length).filter fun i =>
      0 < i ∧ (body.get? i = some 43 ∨ body.get? i = some 45) ∧
        body.get? (i - 1) ≠ some 101 ∧ body.get? (i - 1) ≠ some 69
    idxs.head?

/-- ComplexSize models `Value` complex parsing (val_complex.go):
`strconv.ParseComplex(v, bitSize)` plus the `errKind` classification. -/
def complexSize (v : Value) (bitSize : Nat) : (ℚ × ℚ) × Option Err :=
  let r := parseComplexModel v bitSize
  (r.1, wrapKind r.2)

/-! Value universe for the decode/encode machine: runtime values of the
types the claims decode into.  Floats and complexes are carried as exact
rationals (their IEEE rounding is part of the unmodelled external
primitives).  Values of interface or other named types (`tIface`/`tNamed`)
are carried opaquely: no claim decodes into them, and the machine sends them
to the unsupported-type branch. -/
inductive GoVal where
  | vString (s : Value)
  | vBool (b : Bool)
  | vInt (w : IntW) (x : Int)
  | vUint (w : UintW) (x : Nat)
  | vFloat (w : FloatW) (q : ℚ)
  | vComplex (w : ComplexW) (re im : ℚ)
  | vArray (n : Nat) (elem : RType) (xs : List GoVal)
  | vSlice (elem : RType) (xs : Option (List GoVal))
  | vMap (key val : RType) (entries : Option (List (GoVal × GoVal)))
  | vPtr (elem : RType) (p : Option GoVal)
  | vOpaque (t : RType)

/-- Type of a runtime value (`reflect.Value.Type()`). -/
def GoVal.typeOf : GoVal → RType
  | .vString _ => .tString
  | .vBool _ => .tBool
  | .vInt w _ => .tInt w
  | .vUint w _ => .tUint w
  | .vFloat w _ => .tFloat w
  | .vComplex w _ _ => .tComplex w
  | .vArray n t _ => .tArray n t
  | .vSlice t _ => .tSlice t
  | .vMap k v _ => .tMap k v
  | .vPtr t _ => .tPtr t
  | .vOpaque t => t

/-- Zero value of a type (`reflect.New(typ).Elem()`): empty string, 0,
false, an array of zero elements, nil slice/map/pointer. -/
def zeroVal : RType → GoVal
  | .tString => .vString []
  | .tBool => .vBool false
  | .tInt w => .vInt w 0
  | .tUint w => .vUint w 0
  | .tFloat w => .vFloat w 0
  | .tComplex w => .vComplex w 0 0
  | .tArray n t => .vArray n t (List.replicate n (zeroVal t))
  | .tSlice t => .vSlice t none
  | .tMap k v => .vMap k v none
  | .tPtr t => .vPtr t none
  | t => .vOpaque t

/-- Options holds the two separator settings (options.go); empty fields fall
back to the defaults `","` and `"="`. -/
structure Options where
  itemsSeparator : Value
  keyValueSeparator : Value
  deriving Repr

/-- Zero value of Options (both separators unset). -/
def Options.zero : Options := ⟨[], []⟩

/-- ItemSeparator applies the `","` default (options.go `itemSeparator`). -/
def Options.itemSep (o : Options) : Value :=
  if o.itemsSeparator = [] then ascii "," else o.itemsSeparator

/-- KeyValueSeparator applies the `"="` default (options.go
`keyValueSeparator`). -/
def Options.kvSep (o : Options) : Value :=
  if o.keyValueSeparator = [] then ascii "=" else o.keyValueSeparator

/-- Splitting loop of `strings.Split`: cut around each leftmost-first
non-overlapping occurrence of `sep`. -/
def splitGoAux (sep : List Byte) : Nat → List Byte → List Byte → List (List Byte)
  | 0, _, acc => [acc]
  | f + 1, s, acc =>
    if 0 < sep.length ∧ sep.isPrefixOf s then
      acc :: splitGoAux sep f (s.drop sep.length) []
    else
      match s with
      | [] => [acc]
      | c :: rest => splitGoAux sep f rest (acc ++ [c])

/-- Model of `strings.Split(s, sep)` as used by `split` in decode.go.  The
separators in play are always non-empty (the defaults or caller-set
strings); Go's empty-separator behaviour (split between runes) is not
modelled.  The recursion budget `s.length + 1` covers the loop, which
consumes at least one byte per step. -/
def splitGo (s sep : Value) : List Value :=
  if sep = [] then [s] else splitGoAux sep (s.length + 1) s []

/-- Index of the first occurrence of `sep` in `s`, or none. -/
def findSub (sep : Value) : Value → Option Nat
  | [] => if sep = [] then some 0 else none
  | c :: rest =>
    if sep.isPrefixOf (c :: rest) then some 0
    else (findSub sep rest).map (· + 1)

/-- Model of `strings.SplitN(s, sep, 2)`: split at the first occurrence
only, so the remainder keeps any further separators intact. -/
def splitN2 (s sep : Value) : List Value :=
  if sep = [] then [s]
  else
    match findSub sep s with
    | none => [s]
    | some i => [s.take i, s.drop (i + sep.length)]

/-- ASCII whitespace set trimmed by `strings.TrimSpace` (space, tab, and the
control whitespace bytes).  Go additionally trims Unicode spaces; every
trimmed input in the claims is ASCII. -/
def isSpaceB (c : Byte) : Bool :=
  c = 32 ∨ c = 9 ∨ c = 10 ∨ c = 11 ∨ c = 12 ∨ c = 13

/-- Model of `strings.TrimSpace`. -/
def trimSpace (s : Value) : Value :=
  ((s.dropWhile isSpaceB).reverse.dropWhile isSpaceB).reverse

/-- Model of Go's `string(r)` conversion for a rune: UTF-8 encoding, with
invalid code points (negative, surrogate, out of range) replaced by U+FFFD. -/
def utf8Encode (r : Int) : Value :=
  if r < 0 ∨ r > 1114111 ∨ (55296 ≤ r ∧ r ≤ 57343) then [239, 191, 189]
  else
    let n := r.toNat
    if n < 128 then [n]
    else if n < 2048 then [192 + n / 64, 128 + n % 64]
    else if n < 65536 then
      [224 + n / 4096, 128 + (n / 64) % 64, 128 + n % 64]
    else
      [240 + n / 262144, 128 + (n / 4096) % 64, 128 + (n / 64) % 64,
        128 + n % 64]

/-- Rune returns the first byte of Value as a rune, or 0 when empty
(part_007 `Value.Rune`; note the doc there says "first rune" but the code
reads `v[0]`, a single byte). -/
def Value.rune (v : Value) : Int :=
  match v with
  | [] => 0
  | c :: _ => (c : Int)

/-! Converter functions.  A Go `UnmarshalFunc` receives the raw value and a
pointer to the destination (`dest any`); the embedding passes the pointee's
type and current value and returns the updated value, modelling the
mutation. -/

/-- Embedded type of `UnmarshalFunc` bodies. -/
def UnmFuncB : Type := Value → RType → GoVal → GoVal × Option Err

/-- UnmarshalRune (part_007): stores the first byte of the value into the
destination rune unconditionally, then fails with `ErrRuneTooManyChars` when
the value is longer than one byte.  The type assertion `dest.(*rune)`
panics for any destination that is not an `int32`. -/
def unmarshalRuneB : UnmFuncB := fun v t d =>
  if t = .tInt .i32 then
    let d1 := GoVal.vInt .i32 (Value.rune v)
    if v.length > 1 then (d1, some (.m .errRuneTooManyChars)) else (d1, none)
  else (d, some .assertFail)

/-- UnmarshalText (register.go): asserts the destination to
`encoding.TextUnmarshaler` and calls it.  No type in the modelled value
universe implements that interface, so the assertion panic is the only
reachable behaviour here; the entry still participates in registry lookups. -/
def unmarshalTextB : UnmFuncB := fun _ _ d => (d, some .assertFail)

/-- Implements relation of the modelled universe: the builtin scalar,
composite and pointer types of `GoVal` have no methods, hence implement no
registered interface (`reflect.Type.Implements`). -/
def implB : RType → RType → Bool := fun _ _ => false

/-- Interface identity of `encoding.TextMarshaler` (the interface key the
`init` in register.go uses for both directions). -/
def textMarshalerType : RType := .tIface 0

/-- Global unmarshal registry after `init` (register.go), restricted to the
entries whose key types exist in the modelled universe: the
`encoding.TextMarshaler` interface entry and the `rune` (= `int32`) entry.
The `time.Duration` and `url.URL` entries are named types distinct from
every modelled type, so they cannot influence any lookup performed below
and are omitted. -/
def globalUnmReg : Register UnmFuncB :=
  let r0 := (Register.empty.add textMarshalerType unmarshalTextB).getD
    Register.empty
  (r0.add (.tInt .i32) unmarshalRuneB).getD r0

/-- Unmarshaler (decode.go): the embedded `Options` and a scoped registry. -/
structure UnmB where
  opts : Options
  reg : Register UnmFuncB

/-- Global Unmarshaler (`var unmarshaler Unmarshaler` with the `init`
registrations; its own register is the global one, and its Options are the
zero value). -/
def globalUnm : UnmB := ⟨Options.zero, globalUnmReg⟩

/-- Func resolves the conversion function for a type (`Unmarshaler.Func`):
local registry when initialized, then the global registry.  Iteration order
of interface maps is taken to be insertion order here; every registry used
below has at most one interface entry and `implB` rejects all of them, so
every Go iteration order gives this same result. -/
def UnmB.Func (u : UnmB) (typ : RType) : Option UnmFuncB :=
  scopedFunc u.reg globalUnmReg implB u.reg.ifaceEntries
    globalUnmReg.ifaceEntries typ

/-- Wrapper applied around a converter call (`UnmarshalFunc.exec`): any
converter error is wrapped with `ErrUnmarshalFuncExec`. -/
def execB (fn : UnmFuncB) (v : Value) (t : RType) (d : GoVal) :
    GoVal × Option Err :=
  let r := fn v t d
  match r.2 with
  | some e => (r.1, some (.wrap .errUnmarshalFuncExec e))
  | none => (r.1, none)

/-- Exec (`UnmarshalFunc.Exec`): for a non-pointer destination the address
is taken and the converter runs on it (addressability holds for every
destination produced by the decode flow); for pointer destinations the
chain is materialized — nil pointers are allocated — until the pointee is
not a pointer, and the converter receives that innermost pointer.  The
returned value reflects the mutation through the chain. -/
def UnmFuncB.Exec (fn : UnmFuncB) (v : Value) : RType → GoVal → GoVal × Option Err
  | .tPtr t, d =>
    let inner :=
      match d with
      | .vPtr _ (some p) => p
      | _ => zeroVal t
    let r := UnmFuncB.Exec fn v t inner
    (.vPtr t (some r.1), r.2)
  | t, d => execB fn v t d

/-- Equality of Go map keys for the scalar kinds (`reflect.Value` equality
as used by `SetMapIndex`).  The claims only use scalar keys; Go forbids
slice/map/function keys, and array/pointer/struct keys do not occur below. -/
def GoVal.keyEq : GoVal → GoVal → Bool
  | .vString a, .vString b => a = b
  | .vBool a, .vBool b => a = b
  | .vInt w a, .vInt w' b => w = w' ∧ a = b
  | .vUint w a, .vUint w' b => w = w' ∧ a = b
  | .vFloat w a, .vFloat w' b => w = w' ∧ a = b
  | .vComplex w a b, .vComplex w' a' b' => w = w' ∧ a = a' ∧ b = b'
  | _, _ => false

/-- Map assignment `dest.SetMapIndex(key, val)`: replace the binding when
the key is present, else append it. -/
def mapPutV : List (GoVal × GoVal) → GoVal → GoVal → List (GoVal × GoVal)
  | [], k, v => [(k, v)]
  | (k0, v0) :: rest, k, v =>
    if GoVal.keyEq k k0 then (k0, v) :: rest else (k0, v0) :: mapPutV rest k v

/-- Update of an array element, `dest.Index(i).Set(val)`. -/
def GoVal.setIndex : GoVal → Nat → GoVal → GoVal
  | .vArray n t xs, i, x => .vArray n t (xs.set i x)
  | d, _, _ => d

/-- Insertion into a map value (`dest.SetMapIndex`); the map has been
materialized by the time this runs. -/
def GoVal.setMapIndex : GoVal → GoVal → GoVal → GoVal
  | .vMap k v (some es), key, val => .vMap k v (some (mapPutV es key val))
  | .vMap k v none, key, val => .vMap k v (some (mapPutV [] key val))
  | d, _, _ => d

/-! The decode machine: `Unmarshaler.unmarshal` (decode.go, `rawconv`
variant) and its composite loops.  `unm` is the entry (`u.unmarshal`):
converter lookup, then the empty-value short circuit, then the
pointer-unwrapping loop and the kind switch, here `unmKind` (which carries
`ot`, the original type used in `UnsupportedTypeError`).  Destinations are
passed and returned as explicit values; `reflect` mutation of an element
already committed before a later failure is preserved by the loop shapes.
Destination addressability/settability always holds on these paths and is
not modelled.  Named types of primitive kind (which the kind switch would
coerce) do not occur in the claims and fall to the unsupported branch. -/
mutual

/-- Unmarshal step for one destination (`Unmarshaler.unmarshal`).  The
`fuel` argument is a recursion budget making the mutual recursion
structural (hence kernel-computable); it strictly exceeds the call depth
whenever it is at least `v.length + ty.depth * 2 + 16` (see `unmBudget`),
so the `fuelOut` branches are unreachable from the wrappers below. -/
def unm : Nat → UnmB → Value → RType → GoVal → Bool → GoVal × Option Err
  | 0, _, _, _, d, _ => (d, some .fuelOut)
  | f + 1, u, v, ty, d, nested =>
    match u.Func ty with
    | some fn => fn.Exec v ty d
    | none =>
      if Value.isEmpty v then (d, none)
      else unmKind f u v ty ty d nested

/-- Pointer unwrapping plus the primitive/composite kind switch of
`Unmarshaler.unmarshal` (everything after the converter and emptiness
checks). -/
def unmKind : Nat → UnmB → Value → RType → RType → GoVal → Bool →
    GoVal × Option Err
  | 0, _, _, _, _, d, _ => (d, some .fuelOut)
  | f + 1, u, v, ot, ty, d, nested =>
    match ty with
    | .tPtr t =>
      let inner :=
        match d with
        | .vPtr _ (some p) => p
        | _ => zeroVal t
      let r := unmKind f u v ot t inner nested
      (.vPtr t (some r.1), r.2)
    | .tString => (.vString v, none)
    | .tBool =>
      let r := boolSize v
      (.vBool r.1, r.2)
    | .tInt w =>
      let r := intSize v w.bits
      (.vInt w r.1, r.2)
    | .tUint w =>
      let r := uintSize v w.bits
      (.vUint w r.1, r.2)
    | .tFloat w =>
      let r := floatSize v w.bits
      (.vFloat w r.1, r.2)
    | .tComplex w =>
      let r := complexSize v w.bits
      (.vComplex w r.1.1 r.1.2, r.2)
    | .tArray n t =>
      if nested then (d, some (.m .errUnmarshalNested))
      else unmArrayLoop f u t (splitGo v u.opts.itemSep) 0 n d
    | .tSlice t =>
      if nested then (d, some (.m .errUnmarshalNested))
      else unmSliceLoop f u t (splitGo v u.opts.itemSep) [] d
    | .tMap kt vt =>
      if nested then (d, some (.m .errUnmarshalNested))
      else
        let d1 :=
          match d with
          | .vMap k1 v1 (some es) => GoVal.vMap k1 v1 (some es)
          | _ => GoVal.vMap kt vt (some [])
        unmMapLoop f u kt vt (splitGo v u.opts.itemSep) d1
    | _ => (d, some (.unsupported ot))

/-- Array decode loop: trim each part, decode into a fresh zero element,
commit it at its index; parts beyond the array length trigger
`ErrArrayTooManyValues` (checked after the shared-length prefix has been
decoded and committed). -/
def unmArrayLoop : Nat → UnmB → RType → List Value → Nat → Nat → GoVal →
    GoVal × Option Err
  | 0, _, _, _, _, _, d => (d, some .fuelOut)
  | f + 1, u, t, parts, i, n, d =>
    match parts with
    | [] => (d, none)
    | part :: rest =>
      if i < n then
        let r := unm f u (trimSpace part) t (zeroVal t) true
        match r.2 with
        | some e => (d, some e)
        | none => unmArrayLoop f u t rest (i + 1) n (d.setIndex i r.1)
      else (d, some (.m .errArrayTooManyValues))

/-- Slice decode loop: a fresh slice is built up and only assigned to the
destination after every part decoded (`dest.Set(slice)` after the loop). -/
def unmSliceLoop : Nat → UnmB → RType → List Value → List GoVal → GoVal →
    GoVal × Option Err
  | 0, _, _, _, _, d => (d, some .fuelOut)
  | f + 1, u, t, parts, acc, d =>
    match parts with
    | [] =>
      match d with
      | .vSlice t1 _ => (.vSlice t1 (some acc), none)
      | _ => (d, none)
    | part :: rest =>
      let r := unm f u (trimSpace part) t (zeroVal t) true
      match r.2 with
      | some e => (d, some e)
      | none => unmSliceLoop f u t rest (acc ++ [r.1]) d

/-- Map decode loop: each part splits once on the key-value separator; a
part that does not produce exactly two pieces fails with
`ErrMapInvalidFormat`; key and value decode independently into fresh zero
values and are inserted (destination map already materialized). -/
def unmMapLoop : Nat → UnmB → RType → RType → List Value → GoVal →
    GoVal × Option Err
  | 0, _, _, _, _, d => (d, some .fuelOut)
  | f + 1, u, kt, vt, parts, d =>
    match parts with
    | [] => (d, none)
    | part :: rest =>
      match splitN2 part u.opts.kvSep with
      | [kpart, vpart] =>
        let rk := unm f u kpart kt (zeroVal kt) true
        match rk.2 with
        | some e => (d, some e)
        | none =>
          let rv := unm f u vpart vt (zeroVal vt) true
          match rv.2 with
          | some e => (d, some e)
          | none => unmMapLoop f u kt vt rest (d.setMapIndex rk.1 rv.1)
      | _ => (d, some (.m .errMapInvalidFormat))

end

/-- Unmarshal entry point (decode.go `Unmarshal`): the destination must be a
non-nil pointer, else `ErrPointerExpected`; then the global unmarshaler
decodes at top level. -/
def unmBudget (v : Value) (ty : RType) : Nat :=
  v.length + ty.depth * 2 + 16

/-- Unmarshal of one destination with a sufficient recursion budget; this is
the claim-facing form of `Unmarshaler.unmarshal`. -/
def unmW (u : UnmB) (v : Value) (ty : RType) (d : GoVal) (nested : Bool) :
    GoVal × Option Err :=
  unm (unmBudget v ty) u v ty d nested

/-- Unmarshal entry point (decode.go `Unmarshal`): the destination must be a
non-nil pointer, else `ErrPointerExpected`; then the global unmarshaler
decodes at top level. -/
def UnmarshalGo (v : Value) (d : GoVal) : GoVal × Option Err :=
  match d with
  | .vPtr t (some p) => unmW globalUnm v (.tPtr t) (.vPtr t (some p)) false
  | _ => (d, some (.m .errPointerExpected))

/-! Encode direction: `Marshaler.marshal` (part_006, the latest variant) and
its mirror pieces. -/

/-- String content of a value (`val.String()`); the default is unreachable
for well-typed values. -/
def GoVal.strVal : GoVal → Value
  | .vString s => s
  | _ => []

/-- Bool content of a value (`val.Bool()`). -/
def GoVal.boolVal : GoVal → Bool
  | .vBool b => b
  | _ => false

/-- Signed content of a value (`val.Int()`). -/
def GoVal.intVal : GoVal → Int
  | .vInt _ x => x
  | _ => 0

/-- Unsigned content of a value (`val.Uint()`). -/
def GoVal.uintVal : GoVal → Nat
  | .vUint _ x => x
  | _ => 0

/-- Float content of a value (`val.Float()`, which widens float32 to
float64; exact in this rational carrier). -/
def GoVal.floatVal : GoVal → ℚ
  | .vFloat _ q => q
  | _ => 0

/-- Complex content of a value (`val.Complex()`). -/
def GoVal.cplxVal : GoVal → ℚ × ℚ
  | .vComplex _ a b => (a, b)
  | _ => (0, 0)

/-- Modelled from the spec: `strconv.FormatFloat(f, 'g', -1, 64)` —
shortest-round-trip float formatting — is an external primitive whose
output is not modelled; this placeholder renders the exact rational.  No
claim below depends on this output. -/
def formatFloatModel (q : ℚ) : Value :=
  if q.den = 1 then formatIntGo q.num
  else formatIntGo q.num ++ [47] ++ formatUintGo q.den

/-- Modelled from the spec: `strconv.FormatComplex(c, 'g', -1, 128)`,
likewise an unmodelled external primitive; placeholder rendering in the
parenthesized `(a+bi)` shape. -/
def formatComplexModel (re im : ℚ) : Value :=
  [40] ++ formatFloatModel re ++ (if im < 0 then [] else [43]) ++
    formatFloatModel im ++ [105, 41]

/-- Embedded type of `MarshalFunc` bodies: the source value (with its type)
to its string form. -/
def MarFuncB : Type := RType → GoVal → Value × Option Err

/-- MarshalRune (part_007): `string(v.(rune))`, Go's rune-to-UTF-8 string
conversion; the assertion panics for non-`int32` sources. -/
def marshalRuneB : MarFuncB := fun t d =>
  match t, d with
  | .tInt .i32, .vInt _ x => (utf8Encode x, none)
  | _, _ => ([], some .assertFail)

/-- MarshalText (register.go): asserts `encoding.TextMarshaler`, which no
modelled type implements. -/
def marshalTextB : MarFuncB := fun _ _ => ([], some .assertFail)

/-- Global marshal registry after `init` (register.go): the
`encoding.TextMarshaler` interface entry and the rune entry, the
`time.Duration`/`url.URL` entries being irrelevant to every modelled type
exactly as for `globalUnmReg`. -/
def globalMarReg : Register MarFuncB :=
  let r0 := (Register.empty.add textMarshalerType marshalTextB).getD
    Register.empty
  (r0.add (.tInt .i32) marshalRuneB).getD r0

/-- Marshaler (part_006): embedded `Options` plus a scoped registry. -/
structure MarB where
  opts : Options
  reg : Register MarFuncB

/-- Global Marshaler (`var marshaler Marshaler`). -/
def globalMar : MarB := ⟨Options.zero, globalMarReg⟩

/-- Func of a Marshaler (`Marshaler.Func`), sharing `scopedFunc` with the
unmarshal direction. -/
def MarB.Func (m : MarB) (typ : RType) : Option MarFuncB :=
  scopedFunc m.reg globalMarReg implB m.reg.ifaceEntries
    globalMarReg.ifaceEntries typ

/-- Exec of a marshal converter (`MarshalFunc.exec`): pointer sources are
dereferenced, nil pointers short-circuit to an empty string without
invoking the converter; `errors.WithStack` adds no information here. -/
def MarFuncB.exec (fn : MarFuncB) : RType → GoVal → Value × Option Err
  | .tPtr t, d =>
    match d with
    | .vPtr _ none => ([], none)
    | .vPtr _ (some p) => MarFuncB.exec fn t p
    | d1 => MarFuncB.exec fn t d1
  | t, d => fn t d

/-- Size of the top-level element lists of a value; only used to size the
recursion budget of the marshal machine. -/
def GoVal.topLen : GoVal → Nat
  | .vArray _ _ xs => xs.length
  | .vSlice _ xs => (xs.getD []).length
  | .vMap _ _ es => (es.getD []).length
  | _ => 0

mutual

/-- Marshal step for one source value (`Marshaler.marshal`): converter
lookup, then pointer unwrapping (nil pointers encode to the empty string)
and the kind switch, with `ot` carried for `UnsupportedTypeError`.  Note
the switch formats floats at bit width 64 and complexes at 128 regardless
of the source width, per part_006. -/
def mar : Nat → MarB → RType → RType → GoVal → Bool → Value × Option Err
  | 0, _, _, _, _, _ => ([], some .fuelOut)
  | f + 1, m, ot, ty, d, nested =>
    match m.Func ty with
    | some fn => fn.exec ty d
    | none =>
      match ty with
      | .tPtr t =>
        match d with
        | .vPtr _ none => ([], none)
        | .vPtr _ (some p) => mar f m ot t p nested
        | d1 => mar f m ot t d1 nested
      | .tString => (d.strVal, none)
      | .tBool => (formatBoolGo d.boolVal, none)
      | .tInt _ => (formatIntGo d.intVal, none)
      | .tUint _ => (formatUintGo d.uintVal, none)
      | .tFloat _ => (formatFloatModel d.floatVal, none)
      | .tComplex _ => (formatComplexModel d.cplxVal.1 d.cplxVal.2, none)
      | .tArray _ t =>
        if nested then ([], some (.m .errMarshalNested))
        else
          match d with
          | .vArray _ _ xs => marSeqLoop f m t xs true []
          | _ => marSeqLoop f m t [] true []
      | .tSlice t =>
        if nested then ([], some (.m .errMarshalNested))
        else
          match d with
          | .vSlice _ xs => marSeqLoop f m t (xs.getD []) true []
          | _ => marSeqLoop f m t [] true []
      | .tMap kt vt =>
        if nested then ([], some (.m .errMarshalNested))
        else
          match d with
          | .vMap _ _ es => marMapLoop f m kt vt (es.getD []) false []
          | _ => marMapLoop f m kt vt [] false []
      | _ => ([], some (.unsupported ot))

/-- Array/slice encode loop: recursive marshal of each element (as nested),
joined with the item separator (`i > 0` modelled by the `first` flag). -/
def marSeqLoop : Nat → MarB → RType → List GoVal → Bool → Value →
    Value × Option Err
  | 0, _, _, _, _, _ => ([], some .fuelOut)
  | f + 1, m, t, elems, first, buf =>
    match elems with
    | [] => (buf, none)
    | x :: rest =>
      let r := mar f m t t x true
      match r.2 with
      | some e => ([], some e)
      | none =>
        let buf1 := if first then buf ++ r.1
          else buf ++ m.opts.itemSep ++ r.1
        marSeqLoop f m t rest false buf1

/-- Map encode loop (`val.MapRange()` iteration, modelled in stored entry
order; Go does not specify map iteration order): for each pair the value is
marshalled first, then the key, and `key kvSep value` chunks are joined
with the item separator. -/
def marMapLoop : Nat → MarB → RType → RType → List (GoVal × GoVal) → Bool →
    Value → Value × Option Err
  | 0, _, _, _, _, _, _ => ([], some .fuelOut)
  | f + 1, m, kt, vt, entries, firstDone, buf =>
    match entries with
    | [] => (buf, none)
    | (k, v) :: rest =>
      let rv := mar f m vt vt v true
      match rv.2 with
      | some e => ([], some e)
      | none =>
        let rk := mar f m kt kt k true
        match rk.2 with
        | some e => ([], some e)
        | none =>
          let buf1 := (if firstDone then buf ++ m.opts.itemSep else buf) ++
            rk.1 ++ m.opts.kvSep ++ rv.1
          marMapLoop f m kt vt rest true buf1

end

/-- Recursion budget for the marshal machine; as with `unmBudget` it
strictly exceeds the call depth of every run. -/
def marBudget (ty : RType) (d : GoVal) : Nat :=
  ty.depth * 2 + d.topLen * 4 + 16

/-- Marshal of one source value with a sufficient budget; the claim-facing
form of `Marshaler.marshal`. -/
def marW (m : MarB) (ty : RType) (d : GoVal) (nested : Bool) :
    Value × Option Err :=
  mar (marBudget ty d) m ty ty d nested

/-- Marshal entry point (`Marshal`/`Marshaler.Marshal`): marshal the value
at top level with the global marshaler. -/
def MarshalGo (d : GoVal) : Value × Option Err :=
  marW globalMar d.typeOf d false

/-! Theorems.  Each claim of the specification gets one theorem below
(plus, where the claim fails, a counterexample). -/

/-- Helper: a lookup produced by `getFromImplOrd` is `none` exactly when no
entry of the iterated order matches, provided every index in the order is
in range (which `add` guarantees). -/
theorem getFromImplOrd_none_iff {F : Type} (r : Register F)
    (impl : RType → RType → Bool) (typ : RType) :
    ∀ ord : List (RType × Nat),
      (∀ p ∈ ord, p.2 < (r.funcs.getD []).length) →
      (r.getFromImplOrd impl ord typ = none ↔
        ∀ p ∈ ord, impl typ p.1 = false) := by
  intro ord
  induction ord with
  | nil => intro _; simp [Register.getFromImplOrd]
  | cons hd tl ih =>
    intro hwf
    obtain ⟨x, i⟩ := hd
    by_cases hx : impl typ x
    · have hi : i < (r.funcs.getD []).length := hwf (x, i) (by simp)
      have hsome : (r.funcs.getD []).get? i ≠ none := by
        rw [List.get?_eq_get hi]
        simp
      constructor
      · intro hnone
        exact absurd hnone (by
          simpa [Register.getFromImplOrd, hx, Register.getFromIndex]
            using hsome)
      · intro hall
        have := hall (x, i) (by simp)
        simp [hx] at this
    · have ih1 := ih (fun p hp => hwf p (List.mem_cons_of_mem _ hp))
      constructor
      · intro hnone p hp
        rcases List.mem_cons.mp hp with h1 | h1
        · simp [h1, hx]
        · exact (ih1.mp (by
            simpa [Register.getFromImplOrd, hx] using hnone)) p h1
      · intro hall
        have : r.getFromImplOrd impl tl typ = none :=
          ih1.mpr (fun p hp => hall p (List.mem_cons_of_mem _ hp))
        simpa [Register.getFromImplOrd, hx] using this

/-- Helper: when exactly one entry of the order matches, `getFromImplOrd`
returns its function regardless of where the order placed it. -/
theorem getFromImplOrd_unique {F : Type} (r : Register F)
    (impl : RType → RType → Bool) (typ x : RType) (i : Nat) :
    ∀ ord : List (RType × Nat),
      (x, i) ∈ ord →
      (∀ p ∈ ord, impl typ p.1 = true → p = (x, i)) →
      impl typ x = true →
      r.getFromImplOrd impl ord typ = r.getFromIndex i := by
  intro ord
  induction ord with
  | nil => intro hmem; simp at hmem
  | cons hd tl ih =>
    intro hmem huniq hx
    obtain ⟨y, j⟩ := hd
    by_cases hy : impl typ y
    · have heq : (y, j) = (x, i) := huniq (y, j) (by simp) hy
      obtain ⟨h2a, h2b⟩ := Prod.mk.injEq .. |>.mp heq
      subst h2a
      subst h2b
      simp [Register.getFromImplOrd, hy]
    · have hmem1 : (x, i) ∈ tl := by
        rcases List.mem_cons.mp hmem with h1 | h1
        · obtain ⟨h1a, h1b⟩ := Prod.mk.injEq .. |>.mp h1
          subst h1a
          exact absurd hx hy
        · exact h1
      have := ih hmem1 (fun p hp => huniq p (List.mem_cons_of_mem _ hp)) hx
      simpa [Register.getFromImplOrd, hy] using this

/-- C1 (amended): interface-implementation matching ranges over the
interface map in Go's unspecified iteration order, so for any legal
iteration order (a permutation of the registered entries) it returns the
function of SOME registered interface the type implements — `none` exactly
when no registered interface matches — and it is deterministic when at most
one registered interface matches; when two or more match, the winner is
whichever the iteration order yields first, not necessarily the
first-registered one. -/
theorem C1_iface_resolution_order {F : Type} (r : Register F)
    (impl : RType → RType → Bool) (typ : RType) (ord : List (RType × Nat))
    (hperm : ord.Perm r.ifaceEntries)
    (hwf : ∀ p ∈ r.ifaceEntries, p.2 < (r.funcs.getD []).length) :
    (r.getFromImplOrd impl ord typ = none ↔
      ∀ p ∈ r.ifaceEntries, impl typ p.1 = false)
    ∧ (∀ x i, (x, i) ∈ r.ifaceEntries → impl typ x = true →
        (∀ p ∈ r.ifaceEntries, impl typ p.1 = true → p = (x, i)) →
        r.getFromImplOrd impl ord typ = r.getFromIndex i) := by
  constructor
  · have h1 := getFromImplOrd_none_iff r impl typ ord
      (fun p hp => hwf p (hperm.mem_iff.mp hp))
    rw [h1]
    constructor
    · intro hall p hp
      exact hall p (hperm.mem_iff.mpr hp)
    · intro hall p hp
      exact hall p (hperm.mem_iff.mp hp)
  · intro x i hmem hx huniq
    exact getFromImplOrd_unique r impl typ x i ord
      (hperm.mem_iff.mpr hmem)
      (fun p hp himp => huniq p (hperm.mem_iff.mp hp) himp) hx

/-- Registry with two interfaces registered in order: interface 0 first
(function 100), interface 1 second (function 101). -/
def c1Reg : Register Nat :=
  let r0 := (Register.empty.add (.tIface 0) 100).getD Register.empty
  (r0.add (.tIface 1) 101).getD r0

/-- A candidate type that implements both registered interfaces. -/
def c1Impl : RType → RType → Bool := fun _ _ => true

/-- An implements relation satisfied only by the second interface. -/
def c1ImplOne : RType → RType → Bool := fun _ x => x = .tIface 1

/-- C1 (counterexample): with two registered interfaces both implemented by
the candidate type, iterating the interface map in one legal order (the
insertion order) returns the first-registered interface's function 100,
while another legal order — a permutation of the same map entries, as Go's
randomized map iteration may produce — returns 101, the second-registered
function.  Resolution is therefore not deterministic and not
registration-ordered, refuting the claim. -/
theorem C1_counterexample :
    List.Perm [(RType.tIface 1, 1), (RType.tIface 0, 0)] c1Reg.ifaceEntries
    ∧ c1Reg.getFromImplOrd c1Impl c1Reg.ifaceEntries (.tNamed .kStruct 7) =
        some 100
    ∧ c1Reg.getFromImplOrd c1Impl [(.tIface 1, 1), (.tIface 0, 0)]
        (.tNamed .kStruct 7) = some 101
    ∧ (101 : Nat) ≠ 100 := by
  decide

/-- Witness for C1: at a concrete registry, with only interface 1 matching,
every iteration order — here the reversed one — resolves to interface 1's
function. -/
theorem C1_iface_resolution_order_witness :
    c1Reg.getFromImplOrd c1ImplOne [(.tIface 1, 1), (.tIface 0, 0)]
      (.tNamed .kStruct 7) = c1Reg.getFromIndex 1 :=
  (C1_iface_resolution_order c1Reg c1ImplOne (.tNamed .kStruct 7)
    [(.tIface 1, 1), (.tIface 0, 0)] (by decide) (by decide)).2
    (.tIface 1) 1 (by decide) (by decide) (by decide)

/-- C2: resolution precedence of `register.find` and the scoped
`Unmarshaler.Func`/`Marshaler.Func`: an exact-type hit wins outright; on a
miss a non-pointer type goes to interface matching against its
pointer-to-type; a pointer type first resolves its pointee recursively and
only then tries interface matching on the pointer type itself; and a scoped
registry consults the global registry only after local resolution (when
initialized) has been exhausted. -/
theorem C2_resolution_precedence {F : Type} (r own glob : Register F)
    (impl : RType → RType → Bool) (ord ordO ordG : List (RType × Nat))
    (typ elem : RType) (fn : F) :
    (r.getFromType typ = some fn → r.findOrd impl ord typ = some fn)
    ∧ (r.getFromType typ = none → typ.kind ≠ .kPtr →
        r.findOrd impl ord typ = r.getFromImplOrd impl ord (.tPtr typ))
    ∧ (r.getFromType (.tPtr elem) = none →
        r.findOrd impl ord (.tPtr elem) =
          match r.findOrd impl ord elem with
          | some g => some g
          | none => r.getFromImplOrd impl ord (.tPtr elem))
    ∧ (own.initialized = true → own.findOrd impl ordO typ = some fn →
        scopedFunc own glob impl ordO ordG typ = some fn)
    ∧ (own.findOrd impl ordO typ = none →
        scopedFunc own glob impl ordO ordG typ =
          glob.findOrd impl ordG typ)
    ∧ (own.initialized = false →
        scopedFunc own glob impl ordO ordG typ =
          glob.findOrd impl ordG typ) := by
  refine ⟨?_, ?_, ?_, ?_, ?_, ?_⟩
  · intro h
    cases typ <;> simp [Register.findOrd, h]
  · intro h hk
    cases typ <;> simp [Register.findOrd, h]
    all_goals simp [RType.kind] at hk
  · intro h
    simp [Register.findOrd, h]
  · intro hinit hsome
    simp [scopedFunc, hinit, hsome]
  · intro hnone
    by_cases hi : own.initialized <;> simp [scopedFunc, hi, hnone]
  · intro hinit
    simp [scopedFunc, hinit]

/-- Witness for C2 at a concrete registry: an exact-type hit resolves, and
an uninitialized scoped registry delegates to the given fallback. -/
theorem C2_resolution_precedence_witness :
    c1Reg.findOrd c1Impl c1Reg.ifaceEntries (.tIface 0) = some 100
    ∧ scopedFunc Register.empty c1Reg c1Impl [] c1Reg.ifaceEntries
        (.tIface 0) = c1Reg.findOrd c1Impl c1Reg.ifaceEntries (.tIface 0) :=
  ⟨(C2_resolution_precedence c1Reg Register.empty c1Reg c1Impl
      c1Reg.ifaceEntries [] c1Reg.ifaceEntries (.tIface 0) .tString 100).1
      (by decide),
   (C2_resolution_precedence c1Reg Register.empty c1Reg c1Impl
      c1Reg.ifaceEntries [] c1Reg.ifaceEntries (.tIface 0) .tString
      100).2.2.2.2.2 (by decide)⟩

/-- Unfolding of one unmarshal step at its (always positive) budget. -/
theorem unmW_unfold (u : UnmB) (v : Value) (ty : RType) (d : GoVal)
    (nested : Bool) :
    unmW u v ty d nested =
      match u.Func ty with
      | some fn => fn.Exec v ty d
      | none =>
        if Value.isEmpty v then (d, none)
        else unmKind (v.length + ty.depth * 2 + 15) u v ty ty d nested := rfl

/-- Kind switch on a signed-integer destination: the parse result is stored
and the classified parse error returned, unconditionally. -/
theorem unmKind_int (f : Nat) (u : UnmB) (v : Value) (ot : RType) (w : IntW)
    (d : GoVal) (nested : Bool) :
    unmKind (f + 1) u v ot (.tInt w) d nested =
      (.vInt w (intSize v w.bits).1, (intSize v w.bits).2) := rfl

/-- Kind switch on nested composite destinations: the recursion flag makes
them fail outright. -/
theorem unmKind_nested (f : Nat) (u : UnmB) (v : Value) (ot t kt vt : RType)
    (n : Nat) (d : GoVal) :
    unmKind (f + 1) u v ot (.tArray n t) d true =
        (d, some (.m .errUnmarshalNested))
    ∧ unmKind (f + 1) u v ot (.tSlice t) d true =
        (d, some (.m .errUnmarshalNested))
    ∧ unmKind (f + 1) u v ot (.tMap kt vt) d true =
        (d, some (.m .errUnmarshalNested)) := ⟨rfl, rfl, rfl⟩

/-- Marshal of a nested composite source without a converter fails outright
with the nested-marshal error. -/
theorem mar_nested (f : Nat) (m : MarB) (ot t kt vt : RType) (n : Nat)
    (d : GoVal) :
    (m.Func (.tArray n t) = none →
      mar (f + 1) m ot (.tArray n t) d true =
        ([], some (.m .errMarshalNested)))
    ∧ (m.Func (.tSlice t) = none →
      mar (f + 1) m ot (.tSlice t) d true =
        ([], some (.m .errMarshalNested)))
    ∧ (m.Func (.tMap kt vt) = none →
      mar (f + 1) m ot (.tMap kt vt) d true =
        ([], some (.m .errMarshalNested))) := by
  refine ⟨?_, ?_, ?_⟩
  · intro h
    have h0 : mar (f + 1) m ot (.tArray n t) d true =
        match m.Func (.tArray n t) with
        | some fn => fn.exec (.tArray n t) d
        | none => ([], some (.m .errMarshalNested)) := rfl
    rw [h0, h]
  · intro h
    have h0 : mar (f + 1) m ot (.tSlice t) d true =
        match m.Func (.tSlice t) with
        | some fn => fn.exec (.tSlice t) d
        | none => ([], some (.m .errMarshalNested)) := rfl
    rw [h0, h]
  · intro h
    have h0 : mar (f + 1) m ot (.tMap kt vt) d true =
        match m.Func (.tMap kt vt) with
        | some fn => fn.exec (.tMap kt vt) d
        | none => ([], some (.m .errMarshalNested)) := rfl
    rw [h0, h]

/-- C3: the round-trip law breaks on the int32/rune kind: marshalling the
in-range int32 value 300 produces its two-byte UTF-8 form, and unmarshalling
that back into an int32 stores only the first byte, 196, and fails with the
rune too-many-characters error (wrapped by the converter executor) — so
decode(encode(300)) neither succeeds nor returns 300. -/
theorem C3_rune_roundtrip_failure :
    MarshalGo (.vInt .i32 300) = ([196, 172], none)
    ∧ UnmarshalGo [196, 172] (.vPtr (.tInt .i32) (some (.vInt .i32 0))) =
        (.vPtr (.tInt .i32) (some (.vInt .i32 196)),
          some (.wrap .errUnmarshalFuncExec (.m .errRuneTooManyChars)))
    ∧ (196 : Int) ≠ 300 :=
  ⟨rfl, rfl, by decide⟩

/-- C4 (counterexample): decoding malformed text into an int8 destination
holding 5 rewrites it to 0 — the parser's zero result — and still returns
the classified parse error, so a failing decode does mutate the
destination. -/
theorem C4_counterexample :
    UnmarshalGo (ascii "abc") (.vPtr (.tInt .i8) (some (.vInt .i8 5))) =
      (.vPtr (.tInt .i8) (some (.vInt .i8 0)),
        some (.wrap .errParseFailure (.num .cSyn)))
    ∧ (0 : Int) ≠ 5 :=
  ⟨rfl, by decide⟩

/-- C4 (amended): a primitive-kind decode stores the parser's result in the
destination even when it returns an error (the zero value on malformed
input, the clamped extreme on range overflow); composite decode keeps
elements committed before a later element's failure, as the concrete array
case shows. -/
theorem C4_failure_mutation (v : Value) (w : IntW) (d : GoVal)
    (hw : w ≠ .i32) (hv : v ≠ []) :
    unmW globalUnm v (.tInt w) d false =
      (.vInt w (intSize v w.bits).1, (intSize v w.bits).2)
    ∧ unmW globalUnm (ascii "1,x") (.tArray 2 (.tInt .iDefault))
        (zeroVal (.tArray 2 (.tInt .iDefault))) false =
      (.vArray 2 (.tInt .iDefault) [.vInt .iDefault 1, .vInt .iDefault 0],
        some (.wrap .errParseFailure (.num .cSyn))) := by
  refine ⟨?_, rfl⟩
  have hF : globalUnm.Func (.tInt w) = none := by
    cases w with
    | i32 => exact absurd rfl hw
    | iDefault => rfl
    | i8 => rfl
    | i16 => rfl
    | i64 => rfl
  cases v with
  | nil => exact absurd rfl hv
  | cons c cs =>
    rw [unmW_unfold, hF]
    rfl

/-- Witness for C4 (amended) at the malformed input of the counterexample:
the stored value is the parser's result. -/
theorem C4_failure_mutation_witness :
    unmW globalUnm (ascii "abc") (.tInt .i8) (.vInt .i8 5) false =
      (.vInt .i8 (intSize (ascii "abc") 8).1, (intSize (ascii "abc") 8).2) :=
  (C4_failure_mutation (ascii "abc") .i8 (.vInt .i8 5) (by decide)
    (by decide)).1

/-- C5: numeric decode errors are classified through `errKind`: a range
failure of the integer parser is wrapped as a validation failure, any other
parse failure as a parse failure, and success carries no error; concretely,
decoding the 20-nines literal into int8 yields the validation
classification (with the clamped value 127 stored) while decoding "abc"
yields the parse classification. -/
theorem C5_error_classification (v : Value) (bits : Nat) :
    ((parseIntGo v bits).2 = some .cRange →
      (intSize v bits).2 = some (.wrap .errValidationFailure (.num .cRange)))
    ∧ ((parseIntGo v bits).2 = some .cSyn →
      (intSize v bits).2 = some (.wrap .errParseFailure (.num .cSyn)))
    ∧ ((parseIntGo v bits).2 = none → (intSize v bits).2 = none)
    ∧ ((parseUintGo v bits).2 = some .cRange →
      (uintSize v bits).2 = some (.wrap .errValidationFailure (.num .cRange)))
    ∧ ((parseUintGo v bits).2 = some .cSyn →
      (uintSize v bits).2 = some (.wrap .errParseFailure (.num .cSyn)))
    ∧ ((parseUintGo v bits).2 = none → (uintSize v bits).2 = none)
    ∧ (Err.wrap .errValidationFailure (.num .cRange)).is
        .errValidationFailure = true
    ∧ (Err.wrap .errParseFailure (.num .cSyn)).is .errParseFailure = true
    ∧ UnmarshalGo (ascii "99999999999999999999")
        (.vPtr (.tInt .i8) (some (.vInt .i8 0))) =
      (.vPtr (.tInt .i8) (some (.vInt .i8 127)),
        some (.wrap .errValidationFailure (.num .cRange)))
    ∧ UnmarshalGo (ascii "abc") (.vPtr (.tInt .i8) (some (.vInt .i8 0))) =
      (.vPtr (.tInt .i8) (some (.vInt .i8 0)),
        some (.wrap .errParseFailure (.num .cSyn))) := by
  refine ⟨?_, ?_, ?_, ?_, ?_, ?_, rfl, rfl, rfl, rfl⟩ <;>
    intro h <;>
    simp [intSize, uintSize, wrapKind, errKindGo, Err.asNum, h]

/-- Witness for C5 at concrete inputs on both classification branches. -/
theorem C5_error_classification_witness :
    (intSize (ascii "300") 8).2 =
      some (.wrap .errValidationFailure (.num .cRange))
    ∧ (intSize (ascii "x") 8).2 =
      some (.wrap .errParseFailure (.num .cSyn)) :=
  ⟨(C5_error_classification (ascii "300") 8).1 (by decide),
   (C5_error_classification (ascii "x") 8).2.1 (by decide)⟩

/-- C6: with no registered conversion function, decoding an empty value is
a no-op success for every destination — the emptiness check precedes the
kind switch, so no parse is attempted and the destination (in particular a
fresh zero value) is left untouched; with a registered function, the
converter is invoked on every value, empty included. -/
theorem C6_empty_value (u : UnmB) (ty : RType) (d : GoVal) (v : Value)
    (nested : Bool) (fn : UnmFuncB) :
    (u.Func ty = none → unmW u [] ty d nested = (d, none))
    ∧ (u.Func ty = some fn → unmW u v ty d nested = fn.Exec v ty d) := by
  constructor
  · intro h
    rw [unmW_unfold, h]
    rfl
  · intro h
    rw [unmW_unfold, h]

/-- Witness for C6: int8 has no converter and empty input is a no-op;
int32 has the rune converter, which runs even on the empty value (and
stores rune 0). -/
theorem C6_empty_value_witness :
    (globalUnm.Func (.tInt .i8) = none)
    ∧ unmW globalUnm [] (.tInt .i8) (.vInt .i8 3) false = (.vInt .i8 3, none)
    ∧ (globalUnm.Func (.tInt .i32) = some unmarshalRuneB)
    ∧ unmW globalUnm [] (.tInt .i32) (.vInt .i32 7) false =
        unmarshalRuneB.Exec [] (.tInt .i32) (.vInt .i32 7)
    ∧ unmarshalRuneB.Exec [] (.tInt .i32) (.vInt .i32 7) =
        (.vInt .i32 0, none) :=
  ⟨rfl,
   (C6_empty_value globalUnm (.tInt .i8) (.vInt .i8 3) [] false
      unmarshalRuneB).1 rfl,
   rfl,
   (C6_empty_value globalUnm (.tInt .i32) (.vInt .i32 7) [] false
      unmarshalRuneB).2 rfl,
   rfl⟩

/-- C7: array decode splits on the item separator, trims each part, decodes
parts into elements in order; surplus parts fail with the array-overflow
error after the fitting prefix was committed; missing parts leave the
remaining elements at their zero value. -/
theorem C7_array_decode :
    unmW globalUnm (ascii "1,2,3") (.tArray 3 (.tInt .iDefault))
        (zeroVal (.tArray 3 (.tInt .iDefault))) false =
      (.vArray 3 (.tInt .iDefault)
        [.vInt .iDefault 1, .vInt .iDefault 2, .vInt .iDefault 3], none)
    ∧ unmW globalUnm (ascii "1,2,3") (.tArray 1 (.tInt .iDefault))
        (zeroVal (.tArray 1 (.tInt .iDefault))) false =
      (.vArray 1 (.tInt .iDefault) [.vInt .iDefault 1],
        some (.m .errArrayTooManyValues))
    ∧ unmW globalUnm (ascii "1,2,3") (.tArray 4 (.tInt .iDefault))
        (zeroVal (.tArray 4 (.tInt .iDefault))) false =
      (.vArray 4 (.tInt .iDefault)
        [.vInt .iDefault 1, .vInt .iDefault 2, .vInt .iDefault 3,
          .vInt .iDefault 0], none)
    ∧ unmW globalUnm (ascii " 1 ,2, 3") (.tArray 3 (.tInt .iDefault))
        (zeroVal (.tArray 3 (.tInt .iDefault))) false =
      (.vArray 3 (.tInt .iDefault)
        [.vInt .iDefault 1, .vInt .iDefault 2, .vInt .iDefault 3], none) :=
  ⟨rfl, rfl, rfl, rfl⟩

/-- C8: map decode splits on the item separator and each part at most once
on the key-value separator (later separators stay in the value); a part
with no separator fails with the map-format error (after the nil map was
materialized); keys and values decode independently and are inserted into
the map, which is created when nil. -/
theorem C8_map_decode :
    unmW globalUnm (ascii "a=1,b=2") (.tMap .tString (.tInt .iDefault))
        (.vMap .tString (.tInt .iDefault) none) false =
      (.vMap .tString (.tInt .iDefault)
        (some [(.vString (ascii "a"), .vInt .iDefault 1),
               (.vString (ascii "b"), .vInt .iDefault 2)]), none)
    ∧ unmW globalUnm (ascii "a") (.tMap .tString (.tInt .iDefault))
        (.vMap .tString (.tInt .iDefault) none) false =
      (.vMap .tString (.tInt .iDefault) (some []),
        some (.m .errMapInvalidFormat))
    ∧ unmW globalUnm (ascii "a=b=c") (.tMap .tString .tString)
        (.vMap .tString .tString none) false =
      (.vMap .tString .tString
        (some [(.vString (ascii "a"), .vString (ascii "b=c"))]), none) :=
  ⟨rfl, rfl, rfl⟩

/-- C9 (counterexample): decoding "," into a slice-of-slices succeeds with
no error — both parts are empty, each element decode short-circuits on the
emptiness check before the nested-composite refusal, and the elements stay
nil — refuting the claim that decoding into a nested composite fails with
the nested error. -/
theorem C9_counterexample :
    unmW globalUnm (ascii ",") (.tSlice (.tSlice (.tInt .iDefault)))
      (zeroVal (.tSlice (.tSlice (.tInt .iDefault)))) false =
    (.vSlice (.tSlice (.tInt .iDefault))
      (some [.vSlice (.tInt .iDefault) none,
             .vSlice (.tInt .iDefault) none]), none)
    ∧ (none : Option Err) ≠ some (.m .errUnmarshalNested) :=
  ⟨rfl, by decide⟩

/-- C9 (amended): the recursion flag refuses composite decode below top
level only when an element is actually decoded from a non-empty part — any
non-empty value decoded as a nested element into an array/slice/map
destination (without converter) fails with the nested-unmarshal error, and
nested marshal of composites fails symmetrically (see `mar_nested`); the
claim's example "1,2" into a slice-of-slices fails exactly so, and encoding
a slice of slices with an element fails with the nested-marshal error —
but a value all of whose parts are empty decodes with no error. -/
theorem C9_nested_composite (u : UnmB) (m : MarB) (c : Byte)
    (cs : List Byte) (d : GoVal) (t kt vt : RType) (n : Nat) :
    (u.Func (.tArray n t) = none →
      unmW u (c :: cs) (.tArray n t) d true =
        (d, some (.m .errUnmarshalNested)))
    ∧ (u.Func (.tSlice t) = none →
      unmW u (c :: cs) (.tSlice t) d true =
        (d, some (.m .errUnmarshalNested)))
    ∧ (u.Func (.tMap kt vt) = none →
      unmW u (c :: cs) (.tMap kt vt) d true =
        (d, some (.m .errUnmarshalNested)))
    ∧ (m.Func (.tSlice t) = none →
      marW m (.tSlice t) d true = ([], some (.m .errMarshalNested)))
    ∧ unmW globalUnm (ascii "1,2") (.tSlice (.tSlice (.tInt .iDefault)))
        (zeroVal (.tSlice (.tSlice (.tInt .iDefault)))) false =
      (.vSlice (.tSlice (.tInt .iDefault)) none,
        some (.m .errUnmarshalNested))
    ∧ (MarshalGo (.vSlice (.tSlice (.tInt .iDefault))
        (some [.vSlice (.tInt .iDefault) (some [.vInt .iDefault 1])]))).2 =
      some (.m .errMarshalNested) := by
  refine ⟨?_, ?_, ?_, ?_, rfl, rfl⟩
  · intro h
    rw [unmW_unfold, h]
    rfl
  · intro h
    rw [unmW_unfold, h]
    rfl
  · intro h
    rw [unmW_unfold, h]
    rfl
  · intro h
    show mar (((RType.tSlice t).depth * 2 + d.topLen * 4 + 15) + 1)
      m (.tSlice t) (.tSlice t) d true = _
    exact (mar_nested _ m (.tSlice t) t kt vt n d).2.1 h

/-- Witness for C9 (amended) at the claim's own example types. -/
theorem C9_nested_composite_witness :
    unmW globalUnm (ascii "1") (.tSlice (.tInt .iDefault))
      (.vSlice (.tInt .iDefault) none) true =
      (.vSlice (.tInt .iDefault) none, some (.m .errUnmarshalNested))
    ∧ marW globalMar (.tSlice (.tInt .iDefault))
      (.vSlice (.tInt .iDefault) none) true =
      ([], some (.m .errMarshalNested)) :=
  ⟨(C9_nested_composite globalUnm globalMar 49 [] (.vSlice (.tInt .iDefault) none)
      (.tInt .iDefault) .tString .tString 0).2.1 rfl,
   (C9_nested_composite globalUnm globalMar 49 [] (.vSlice (.tInt .iDefault) none)
      (.tInt .iDefault) .tString .tString 0).2.2.2.1 rfl⟩

/-- C10: the built-in rune conversion reads only the first byte: through
the registry and converter executor, decoding any value into an int32
stores its first byte (0 when empty) and fails — with the
too-many-characters error wrapped by the executor — exactly when the value
is longer than one byte; in particular a single character spanning two
UTF-8 bytes fails while the destination holds its first byte. -/
theorem C10_rune_first_byte (v : Value) (x : Int) :
    unmW globalUnm v (.tInt .i32) (.vInt .i32 x) false =
      (.vInt .i32 (Value.rune v),
        if v.length > 1 then
          some (.wrap .errUnmarshalFuncExec (.m .errRuneTooManyChars))
        else none)
    ∧ Value.rune [] = 0
    ∧ (∀ c cs, Value.rune (c :: cs) = (c : Int))
    ∧ unmW globalUnm [195, 169] (.tInt .i32) (.vInt .i32 0) false =
      (.vInt .i32 195,
        some (.wrap .errUnmarshalFuncExec (.m .errRuneTooManyChars))) := by
  refine ⟨?_, rfl, fun c cs => rfl, rfl⟩
  have hF : globalUnm.Func (.tInt .i32) = some unmarshalRuneB := rfl
  rw [unmW_unfold, hF]
  by_cases h : v.length > 1 <;>
    simp [UnmFuncB.Exec, execB, unmarshalRuneB, h]

end Rawconv
